import Mathlib

/-!
Shallow embedding of the jackal-bot bond scraper.

The embedding translates `top_bonds.py` (field extraction, ranking,
plain-table formatting) and the cache layer of `telegram_bonds_bot.py`
(`get_bonds_data`) into executable Lean definitions.  Python floats are
modelled as exact rationals (`ℚ`); the decimal-literal grammar accepted by
`float(...)` is modelled for finite decimal/exponent forms.  Raw-markup
regular-expression scans (`re.findall`, `re.search`, `re.sub`) are
translated into character-list scans with the same leftmost,
non-overlapping, greedy/lazy semantics as the concrete patterns used by
the source.  The network fetch is factored out: the extraction function
takes the fetched markup text and the evaluation date as parameters.
-/

namespace JackalBot

/-! ### Python-style character and string helpers -/

/-- The whitespace characters stripped by Python `str.strip()` and matched
by the regex class `\s` (ASCII subset; the inputs of interest contain no
exotic Unicode whitespace). -/
def isPyWs (c : Char) : Bool :=
  c = ' ' || c = '\t' || c = '\n' || c = '\r' || c = '\x0b' || c = '\x0c'

/-- Python `str.strip()`: drop whitespace from both ends. -/
def pyStrip (l : List Char) : List Char :=
  ((l.dropWhile isPyWs).reverse.dropWhile isPyWs).reverse

/-- Python `str.replace(x, '')` for a single character: remove every
occurrence. -/
def removeChar (x : Char) (l : List Char) : List Char :=
  l.filter (fun c => c != x)

/-- Python `str.replace(x, y)` for single characters. -/
def replaceChar (x y : Char) (l : List Char) : List Char :=
  l.map (fun c => if c = x then y else c)

/-- Python substring test `needle in hay`. -/
def containsSub (pat : List Char) : List Char → Bool
  | [] => pat.isEmpty
  | c :: cs => pat.isPrefixOf (c :: cs) || containsSub pat cs

/-- Python `str.split(sep)` for a one-character separator: split on every
occurrence, keeping empty pieces. -/
def splitOnChar (x : Char) : List Char → List (List Char)
  | [] => [[]]
  | c :: cs =>
    match splitOnChar x cs with
    | [] => [[]]
    | h :: t => if c = x then [] :: h :: t else (c :: h) :: t

/-- Numeric value of a digit string (most significant first). -/
def digitsVal (l : List Char) : ℕ :=
  l.foldl (fun a c => a * 10 + (c.toNat - 48)) 0

/-- Split a leading `+`/`-` sign, returning the sign as `1` or `-1`. -/
def parseSign : List Char → ℤ × List Char
  | '+' :: cs => (1, cs)
  | '-' :: cs => ((-1 : ℤ), cs)
  | cs => (1, cs)

/-- Python `int(s)`: strip whitespace, optional sign, then a nonempty run
of decimal digits. -/
def parsePyInt (l : List Char) : Option ℤ :=
  let t := pyStrip l
  let p := parseSign t
  if p.2 ≠ [] ∧ p.2.all Char.isDigit then some (p.1 * (digitsVal p.2 : ℤ)) else none

/-- Unsigned decimal mantissa of a Python float literal:
`digits`, `digits.digits`, `digits.` or `.digits`. -/
def parseUFloat (l : List Char) : Option ℚ :=
  let ip := l.takeWhile Char.isDigit
  match l.drop ip.length with
  | [] => if ip = [] then none else some ((digitsVal ip : ℚ))
  | '.' :: fr =>
    let fp := fr.takeWhile Char.isDigit
    if fr.drop fp.length ≠ [] then none
    else if ip = [] ∧ fp = [] then none
    else some ((digitsVal ip : ℚ) + (digitsVal fp : ℚ) / (10 : ℚ) ^ fp.length)
  | _ => none

/-- Split a mantissa from an optional exponent part at the first `e`/`E`. -/
def splitAtExp : List Char → List Char × Option (List Char)
  | [] => ([], none)
  | c :: cs =>
    if c = 'e' ∨ c = 'E' then ([], some cs)
    else
      match splitAtExp cs with
      | (a, b) => (c :: a, b)

/-- A Python float value: a finite value (identified with its exact
decimal rational, the usual exact-rational abstraction of the binary
double), positive or negative infinity, or NaN. -/
inductive PyFloat where
  | finite : ℚ → PyFloat
  | inf : PyFloat
  | ninf : PyFloat
  | nan : PyFloat
deriving Repr, DecidableEq

def PyFloat.isFinite : PyFloat → Bool
  | PyFloat.finite _ => true
  | _ => false

/-- ASCII lower-casing, for the case-insensitive `inf`/`nan` forms. -/
def lowerChars (l : List Char) : List Char :=
  l.map Char.toLower

/-- The IEEE-754 double overflow boundary: exact values of magnitude at
least `2^1024 - 2^970` round to infinity under round-to-nearest-even
(the largest finite double is `2^1024 - 2^971`). -/
def doubleOverflowBound : ℚ := (2 : ℚ) ^ 1024 - (2 : ℚ) ^ 970

/-- Rounding an exact decimal value into the double range: magnitudes at
or beyond the overflow boundary saturate to ±infinity (`float("1e320")`
is `inf`).  Finite values keep their exact rational (values within range
are abstracted by their decimal value; underflow to zero or subnormals
does not affect finiteness). -/
def saturate (q : ℚ) : PyFloat :=
  if doubleOverflowBound ≤ q then PyFloat.inf
  else if q ≤ -doubleOverflowBound then PyFloat.ninf
  else PyFloat.finite q

/-- Python `float(s)`: strip whitespace, optional sign, then either the
case-insensitive special forms `inf`/`infinity`/`nan` or a decimal
mantissa with optional decimal exponent, saturating out-of-range
magnitudes to ±infinity.  (Underscore digit grouping is omitted, as in
`parsePyInt`.) -/
def pyFloat (l : List Char) : Option PyFloat :=
  let t := pyStrip l
  let p := parseSign t
  let low := lowerChars p.2
  if low = "inf".data ∨ low = "infinity".data then
    some (if p.1 = 1 then PyFloat.inf else PyFloat.ninf)
  else if low = "nan".data then some PyFloat.nan
  else
    let me := splitAtExp p.2
    match parseUFloat me.1 with
    | none => none
    | some m =>
      match me.2 with
      | none => some (saturate ((p.1 : ℚ) * m))
      | some ep =>
        let q := parseSign ep
        if q.2 ≠ [] ∧ q.2.all Char.isDigit then
          let e : ℕ := digitsVal q.2
          some (saturate (if q.1 = 1 then (p.1 : ℚ) * m * (10 : ℚ) ^ e
                else (p.1 : ℚ) * m / (10 : ℚ) ^ e))
        else none

/-- The finite restriction of `pyFloat`: the parsed value as an exact
rational when it is finite, `none` otherwise.  This feeds the finite
data model (`Bond.ytm : ℚ`); where `pyFloat` yields a non-finite value
the program's record leaves that model (see claim C5). -/
def parsePyFloat (l : List Char) : Option ℚ :=
  match pyFloat l with
  | some (PyFloat.finite q) => some q
  | _ => none

/-! ### Regex scans used by the extractor -/

/-- `re.sub(r'<[^>]+>', '', s)`: remove every leftmost, non-overlapping
`<`, one-or-more non-`>`, `>` span.  Structured with explicit fuel (one
unit per input character suffices) so the definition is structural. -/
def stripTagsF : ℕ → List Char → List Char
  | 0, l => l
  | _ + 1, [] => []
  | f + 1, c :: cs =>
    if c = '<' then
      let run := cs.takeWhile (fun d => d != '>')
      if run.isEmpty then c :: stripTagsF f cs
      else
        match cs.drop run.length with
        | '>' :: rest => stripTagsF f rest
        | _ => c :: stripTagsF f cs
    else c :: stripTagsF f cs

def stripTags (l : List Char) : List Char := stripTagsF l.length l

/-- Drop characters up to and including the first `>`; `none` if absent.
This is the `[^>]*>` step of the tag patterns. -/
def dropThroughGt : List Char → Option (List Char)
  | [] => none
  | c :: cs => if c = '>' then some cs else dropThroughGt cs

/-- Split at the first occurrence of `pat` (assumed nonempty): returns the
part before it and the part after it. -/
def splitOnSub (pat : List Char) : List Char → Option (List Char × List Char)
  | [] => none
  | c :: cs =>
    if pat.isPrefixOf (c :: cs) then some ([], (c :: cs).drop pat.length)
    else
      match splitOnSub pat cs with
      | some p => some (c :: p.1, p.2)
      | none => none

/-- `re.findall(r'<tag[^>]*>(.*?)</tag>', s, re.DOTALL)`: leftmost,
non-overlapping matches, lazy contents (up to the first closing tag).
Fuel-structured; one unit per input character suffices because each
recursive call strictly shrinks the scanned list. -/
def findAllTagF (tag : List Char) : ℕ → List Char → List (List Char)
  | 0, _ => []
  | _ + 1, [] => []
  | f + 1, c :: cs =>
    if ('<' :: tag).isPrefixOf (c :: cs) then
      match dropThroughGt ((c :: cs).drop (tag.length + 1)) with
      | some rest =>
        match splitOnSub ('<' :: '/' :: tag ++ ['>']) rest with
        | some p => p.1 :: findAllTagF tag f p.2
        | none => findAllTagF tag f cs
      | none => findAllTagF tag f cs
    else findAllTagF tag f cs

def findAllTag (tag : List Char) (l : List Char) : List (List Char) :=
  findAllTagF tag l.length l

/-! ### Dates (`datetime.date`) -/

structure Date where
  year : ℕ
  month : ℕ
  day : ℕ
deriving Repr, DecidableEq

def isLeap (y : ℤ) : Bool :=
  y % 4 = 0 && (y % 100 != 0 || y % 400 = 0)

def daysInMonth (y m : ℤ) : ℤ :=
  if m = 2 then (if isLeap y then 29 else 28)
  else if m = 4 ∨ m = 6 ∨ m = 9 ∨ m = 11 then 30
  else 31

/-- The outcome of `datetime.date(year, month, day)`: a date, a
`ValueError` (caught by the local handler at `top_bonds.py:181`), or an
`OverflowError` (not in that handler's tuple — it escapes to the outer
handler and aborts the whole call). -/
inductive DateResult where
  | ok : Date → DateResult
  | valueError : DateResult
  | overflowError : DateResult
deriving Repr, DecidableEq

/-- `datetime.date(year, month, day)`: the C-level `"iii"` argument
conversion raises `OverflowError` for any component outside the C-int
range `[-2^31, 2^31 - 1]`; after conversion, range validation raises
`ValueError`. -/
def mkValidDate (y m d : ℤ) : DateResult :=
  if y < -2147483648 ∨ 2147483647 < y ∨ m < -2147483648 ∨ 2147483647 < m
      ∨ d < -2147483648 ∨ 2147483647 < d then
    DateResult.overflowError
  else if 1 ≤ y ∧ y ≤ 9999 ∧ 1 ≤ m ∧ m ≤ 12 ∧ 1 ≤ d ∧ d ≤ daysInMonth y m then
    DateResult.ok ⟨y.toNat, m.toNat, d.toNat⟩
  else DateResult.valueError

/-- Proleptic-Gregorian day number (Julian day number) of a valid date;
differences of `dateOrd` values model `(d1 - d2).days`. -/
def dateOrd (dt : Date) : ℕ :=
  let a := (14 - dt.month) / 12
  let y := dt.year + 4800 - a
  let m := dt.month + 12 * a - 3
  dt.day + (153 * m + 2) / 5 + 365 * y + y / 4 - y / 100 + y / 400 - 32045

/-- `(d1 - d2).days` for `datetime.date` values. -/
def dateDiff (d1 d2 : Date) : ℤ :=
  (dateOrd d1 : ℤ) - (dateOrd d2 : ℤ)

/-! ### Fixed-point formatting (`"{:.1f}"`, `"{:.2f}"`) and `str.ljust` -/

/-- Round a nonnegative rational to the nearest integer, ties to even
(the rounding used by `format`). -/
def roundHalfEven (q : ℚ) : ℤ :=
  let f := ⌊q⌋
  let frac := q - (f : ℚ)
  if frac < 1 / 2 then f
  else if 1 / 2 < frac then f + 1
  else if f % 2 = 0 then f else f + 1

/-- `"{:.prec f}".format(x)` on the exact rational value of the float. -/
def formatFixed (prec : ℕ) (q : ℚ) : String :=
  let n := (roundHalfEven (|q| * (10 : ℚ) ^ prec)).toNat
  let ip := n / 10 ^ prec
  let fp := n % 10 ^ prec
  let fpStr := toString fp
  let pad := (List.replicate (prec - fpStr.length) '0').asString
  (if q < 0 then "-" else "") ++ toString ip ++ "." ++ pad ++ fpStr

/-- Python `str.ljust(w)`: pad on the right with spaces to width `w`. -/
def ljust (s : String) (w : ℕ) : String :=
  s ++ (List.replicate (w - s.length) ' ').asString

/-! ### The name/ISIN anchor pattern

`re.search(r'title="[^"]*\s+\(([^)]+)\)"[^>]*>([^<]+)</a>', name_html)`:
a backtracking matcher for exactly this pattern.  The starred classes are
greedy (longest first, backtracking through the continuation); the
remaining items are forced because each class excludes its follow
character. -/

/-- Greedy Kleene star over the class `p`, backtracking into the
continuation `k` (longest match first, as the regex engine does). -/
def starGreedy (p : Char → Bool) (k : List Char → Option (String × String)) :
    List Char → Option (String × String)
  | [] => k []
  | c :: cs =>
    if p c then
      match starGreedy p k cs with
      | some r => some r
      | none => k (c :: cs)
    else k (c :: cs)

/-- `([^<]+)</a>` : capture group 2 and the closing literal. -/
def anchorTail2 (g1 : List Char) (r5 : List Char) : Option (String × String) :=
  let g2 := r5.takeWhile (fun c => c != '<')
  if g2 = [] then none
  else if "</a>".data.isPrefixOf (r5.drop g2.length) then
    some (String.mk g1, String.mk g2)
  else none

/-- `[^>]*>` after the closing quote, then group 2. -/
def anchorTail1 (g1 : List Char) (r4 : List Char) : Option (String × String) :=
  let u := r4.takeWhile (fun c => c != '>')
  match r4.drop u.length with
  | '>' :: r5 => anchorTail2 g1 r5
  | _ => none

/-- `([^)]+)\)"` : capture group 1 (the ISIN), then its closing literal. -/
def anchorAfterParen (r3 : List Char) : Option (String × String) :=
  let g1 := r3.takeWhile (fun c => c != ')')
  if g1 = [] then none
  else
    match r3.drop g1.length with
    | ')' :: '"' :: r4 => anchorTail1 g1 r4
    | _ => none

/-- After the `\s+`, the literal `\(` must follow. -/
def anchorAfterWs : List Char → Option (String × String)
  | '(' :: r3 => anchorAfterParen r3
  | _ => none

/-- `\s+` : one whitespace character then a greedy whitespace star. -/
def anchorPlusWs : List Char → Option (String × String)
  | [] => none
  | c :: cs => if isPyWs c then starGreedy isPyWs anchorAfterWs cs else none

/-- Try the full pattern anchored at the start of `l`. -/
def anchorAt (l : List Char) : Option (String × String) :=
  if "title=\"".data.isPrefixOf l then
    starGreedy (fun c => c != '"') anchorPlusWs (l.drop 7)
  else none

/-- `re.search`: try each start position, leftmost first. -/
def anchorSearch : List Char → Option (String × String)
  | [] => none
  | c :: cs =>
    match anchorAt (c :: cs) with
    | some r => some r
    | none => anchorSearch cs

/-! ### Bond records and per-row extraction (`get_top_yield_bonds`) -/

/-- One extracted bond: the dictionary built at `top_bonds.py:195-208`.
The optional `'Years to Offer'` / `'Years to Offer Str'` keys are
modelled by the optional `years_to_offer` field (the string form is
derived from it where the source formats it). -/
structure Bond where
  isin : String
  name : String
  ytm : ℚ
  rating : String
  maturity : String
  offer_date : String
  years_to_offer : Option ℚ
deriving Repr, DecidableEq

/-- Resolved column indices (`name_idx`, `ytm_idx`, `rating_idx`,
`maturity_idx`, `offer_date_idx`), each `None` when no header matched. -/
structure ColIdx where
  name_idx : Option ℕ
  ytm_idx : Option ℕ
  rating_idx : Option ℕ
  maturity_idx : Option ℕ
  offer_date_idx : Option ℕ
deriving Repr, DecidableEq

/-- `cells[i].strip() if i is not None and i < len(cells) else dflt`. -/
def cellText (cells : List (List Char)) (oi : Option ℕ) (dflt : List Char) :
    List Char :=
  match oi with
  | some i =>
    match cells.get? i with
    | some c => pyStrip c
    | none => dflt
  | none => dflt

/-- The cleaned yield text:
`cells[ytm_idx].strip().replace('%', '').replace(',', '.').strip()`
(default `"0"` when the column is missing). -/
def ytmText (cells : List (List Char)) (oi : Option ℕ) : List Char :=
  pyStrip (replaceChar ',' '.' (removeChar '%' (cellText cells oi "0".data)))

/-- The final `if not offer_date: offer_date = "N/A"` fix-up. -/
def fixEmptyOffer (p : List Char × Option ℚ) : List Char × Option ℚ :=
  if p.1 = [] then ("N/A".data, p.2) else p

/-- `day, month, year = map(int, offer_date.split('.'))`, the 2-digit
year fix-up, and `datetime.date(year, month, day)`, with CPython's error
distinction: bad split/int/unpack or an out-of-range date is a
`ValueError`; a component outside the C-int range is an
`OverflowError`. -/
def parseDMYE (s : List Char) : DateResult :=
  match (splitOnChar '.' s).map parsePyInt with
  | [some d, some m, some y] =>
    mkValidDate (if y < 100 then y + 2000 else y) m d
  | _ => DateResult.valueError

/-- The date parse as seen under the local
`except (ValueError, AttributeError, IndexError)` handler: `some` on
success, `none` on a caught error.  An `OverflowError` never reaches
this handler — it aborts the whole extraction instead (see
`rowRaises`) — so this view is only consulted on rows that do not
abort. -/
def parseDMY (s : List Char) : Option Date :=
  match parseDMYE s with
  | DateResult.ok dt => some dt
  | _ => none

/-- Whether the offer-date branch raises the uncaught `OverflowError` on
this (markup-stripped, stripped) cell text: the parse is attempted
(nonempty, not `"N/A"`, not `"-"`) and a date component does not fit a
C int. -/
def offerRaisesOverflow (s : List Char) : Bool :=
  decide (s ≠ [] ∧ s ≠ "N/A".data ∧ s ≠ "-".data)
    && decide (parseDMYE s = DateResult.overflowError)

/-- Whether processing this row raises the uncaught `OverflowError`: the
offer column is resolved and present, and its cell text overflows the
date constructor.  (Every other exception a row can raise is in a local
`except` tuple.) -/
def rowRaises (idxs : ColIdx) (cells : List (List Char)) : Bool :=
  match idxs.offer_date_idx with
  | some i =>
    match cells.get? i with
    | some c => offerRaisesOverflow (pyStrip (stripTags (pyStrip c)))
    | none => false
  | none => false

/-- The offer-date branch of the row loop (`top_bonds.py:156-190`) on the
markup-stripped, stripped cell text: returns the final `offer_date`
string and the optional `years_to_offer` value. -/
def processOfferDate (today : Date) (s : List Char) : List Char × Option ℚ :=
  fixEmptyOffer
    (if s ≠ [] ∧ s ≠ "N/A".data ∧ s ≠ "-".data then
      match parseDMY s with
      | some dt =>
        let days := dateDiff dt today
        if 0 < days then (s, some ((days : ℚ) / 365)) else ("N/A".data, none)
      | none => (s, none)
    else if s = "-".data then ("N/A".data, none)
    else (s, none))

/-- Build one bond dictionary from a row's `<td>` cell contents
(`top_bonds.py:116-208`). -/
def buildBond (today : Date) (idxs : ColIdx) (cells : List (List Char)) : Bond :=
  let name_html := cellText cells idxs.name_idx []
  let nm :=
    match anchorSearch name_html with
    | some p => p
    | none => ("N/A", String.mk (pyStrip (stripTags name_html)))
  let ytm := (parsePyFloat (ytmText cells idxs.ytm_idx)).getD 0
  let rating := String.mk (cellText cells idxs.rating_idx "N/A".data)
  let maturity :=
    match parsePyFloat (replaceChar ',' '.' (cellText cells idxs.maturity_idx [])) with
    | some m => formatFixed 1 m ++ " years"
    | none => "N/A"
  let offer :=
    match idxs.offer_date_idx with
    | some i =>
      match cells.get? i with
      | some c => processOfferDate today (pyStrip (stripTags (pyStrip c)))
      | none => ("N/A".data, none)
    | none => ("N/A".data, none)
  ⟨nm.1, nm.2, ytm, rating, maturity, String.mk offer.1, offer.2⟩

/-- Python `max(iterable)`: `none` models the `ValueError` raised on an
empty sequence. -/
def pyMax : List ℕ → Option ℕ
  | [] => none
  | x :: xs =>
    match pyMax xs with
    | none => some x
    | some m => some (max x m)

/-- `filter(None, [name_idx, ytm_idx, rating_idx, maturity_idx])`:
Python truthiness drops both `None` and `0`. -/
def truthyIdxs (idxs : ColIdx) : List ℕ :=
  (([idxs.name_idx, idxs.ytm_idx, idxs.rating_idx, idxs.maturity_idx].filterMap id).filter
    (fun i => i != 0))

/-- The row loop (`top_bonds.py:107-210`): skip a row when
`len(cells) <= max(filter(None, [...]))`, otherwise append `buildBond`.
Two exceptions escape to the outer handler and make the whole call
return `none`: the `ValueError` from `max` of an empty sequence, and the
`OverflowError` of the offer-date constructor (`rowRaises`), which the
local `except` tuple does not catch. -/
def processRows (today : Date) (idxs : ColIdx) :
    List (List (List Char)) → Option (List Bond)
  | [] => some []
  | cells :: rest =>
    match pyMax (truthyIdxs idxs) with
    | none => none
    | some m =>
      if cells.length ≤ m then processRows today idxs rest
      else if rowRaises idxs cells then none
      else (processRows today idxs rest).map (fun bs => buildBond today idxs cells :: bs)

/-! ### Table selection, header resolution and the full extraction -/

/-- Select the first `<table>` block whose raw content contains both the
yield marker and the rating marker (`top_bonds.py:42-59`); covers both
the no-tables and the no-qualifying-table failure. -/
def selectTable (html : List Char) : Option (List Char) :=
  (findAllTag "table".data html).find?
    (fun t => containsSub "Доходн".data t && containsSub "Рейтинг".data t)

/-- All `<tr>` blocks of the selected table; the first is the header row
(`re.search` finds exactly the first `findall` match). -/
def rowsOf (tc : List Char) : List (List Char) :=
  findAllTag "tr".data tc

/-- The stripped `<th>` header cells of the header row. -/
def headersOf (headerRow : List Char) : List (List Char) :=
  (findAllTag "th".data headerRow).map pyStrip

/-- `next((i for i, h in enumerate(headers) if marker in h), None)`. -/
def findMarker (marker : List Char) (headers : List (List Char)) : Option ℕ :=
  headers.findIdx? (fun h => containsSub marker h)

/-- Resolve the five semantic column indices from the header row
(`top_bonds.py:77-85`). -/
def colIdxsOf (headerRow : List Char) : ColIdx :=
  let hs := headersOf headerRow
  ⟨findMarker "Имя".data hs, findMarker "Доходн".data hs,
   findMarker "Рейтинг".data hs, findMarker "Лет до".data hs,
   findMarker "Оферта".data hs⟩

/-- The `<td>` cell contents of one data row. -/
def tdCellsOf (row : List Char) : List (List Char) :=
  findAllTag "td".data row

/-- Sort order of the Ranker: non-increasing yield to maturity. -/
def yieldGe (a b : Bond) : Prop := b.ytm ≤ a.ytm

instance : DecidableRel yieldGe := fun a b => inferInstanceAs (Decidable (b.ytm ≤ a.ytm))

instance : IsTotal Bond yieldGe := ⟨fun a b => (le_total b.ytm a.ytm)⟩

instance : IsTrans Bond yieldGe := ⟨fun _ _ _ h1 h2 => le_trans h2 h1⟩

/-- `sorted(bonds_list, key=lambda x: x['Yield to Maturity'], reverse=True)`:
the stable descending sort (stable insertion sort realises exactly the
stable sort Python guarantees). -/
def sortBonds (l : List Bond) : List Bond :=
  l.insertionSort yieldGe

/-- Python list slicing `l[:n]`, including the negative-index case. -/
def pySlice {α : Type} (l : List α) (n : ℤ) : List α :=
  if 0 ≤ n then l.take n.toNat else l.take (l.length - n.natAbs)

/-- The Ranker (`top_bonds.py:212-216`): stable descending sort by yield,
then `sorted_bonds[:count]`. -/
def rank (records : List Bond) (count : ℤ) : List Bond :=
  pySlice (sortBonds records) count

/-- `get_top_yield_bonds` (`top_bonds.py:10-223`) with the network fetch
factored out: takes the fetched markup and the evaluation date.  `none`
models every path that returns `None` (including exceptions reaching the
outer handler). -/
def get_top_yield_bonds (today : Date) (html : String) (count : ℤ) :
    Option (List Bond) :=
  match selectTable html.data with
  | none => none
  | some tc =>
    match rowsOf tc with
    | [] => none
    | headerRow :: dataRows =>
      let idxs := colIdxsOf headerRow
      match idxs.ytm_idx with
      | none => none
      | some _ =>
        match processRows today idxs (dataRows.map tdCellsOf) with
        | none => none
        | some bs => some (rank bs count)

/-! ### `print_table` (the plain-table Report Formatter) -/

def columns : List String :=
  ["ISIN", "Name", "Yield to Maturity", "Rating", "Maturity", "Offer Date",
   "Years to Offer Str"]

/-- Dictionary access `item[col]` with the yield formatting applied:
`some` exactly when the key is present in the bond dictionary. -/
def bondField (b : Bond) (col : String) : Option String :=
  if col = "ISIN" then some b.isin
  else if col = "Name" then some b.name
  else if col = "Yield to Maturity" then some (formatFixed 2 b.ytm ++ "%")
  else if col = "Rating" then some b.rating
  else if col = "Maturity" then some b.maturity
  else if col = "Offer Date" then some b.offer_date
  else if col = "Years to Offer Str" then
    b.years_to_offer.map (fun y => formatFixed 1 y ++ " years")
  else none

/-- `item.get(col, "N/A")` as rendered in a data row. -/
def renderCell (b : Bond) (col : String) : String :=
  (bondField b col).getD "N/A"

/-- The width computation of `print_table` (`top_bonds.py:239-249`):
start from the header length and take the maximum over the values
present in each record. -/
def widthOf (data : List Bond) (col : String) : ℕ :=
  data.foldl
    (fun w b =>
      match bondField b col with
      | some s => max w s.length
      | none => w)
    col.length

/-- The lines printed by `print_table` (header, separator, data rows). -/
def printTable (data : List Bond) : List String :=
  if data = [] then ["No data to display."]
  else
    let headerLine := String.intercalate " | " (columns.map (fun c => ljust c (widthOf data c)))
    let sep := (List.replicate headerLine.length '-').asString
    headerLine :: sep ::
      data.map (fun b =>
        String.intercalate " | " (columns.map (fun c => ljust (renderCell b c) (widthOf data c))))

/-! ### The cache layer (`telegram_bonds_bot.get_bonds_data`) -/

/-- The module globals `last_fetch_time` / `last_bonds_data`. -/
structure CacheState where
  last_fetch_time : Option ℚ
  last_bonds_data : Option (List Bond)
deriving Repr, DecidableEq

def initialCache : CacheState := ⟨none, none⟩

/-- The fetch branch (`telegram_bonds_bot.py:262-275`): clamp the fetch
count, invoke the fetcher, replace the cache wholesale on a nonempty
result.  The third component records that the fetcher was invoked. -/
def fetchBranch (st : CacheState) (now : ℚ) (count : ℕ)
    (fetcher : ℕ → Option (List Bond)) :
    Option (List Bond) × CacheState × Bool :=
  let fetch_count := min (max count 5) 20
  match fetcher fetch_count with
  | some bonds =>
    if bonds = [] then (none, st, true)
    else (some (bonds.take count), ⟨some now, some bonds⟩, true)
  | none => (none, st, true)

/-- `get_bonds_data` (`telegram_bonds_bot.py:245-275`) as a pure state
transformer: the result, the new cache state, and whether the underlying
fetch function was invoked.  The guard mirrors Python truthiness of the
two globals (`0.0` and `[]` are falsy). -/
def get_bonds_data (st : CacheState) (now : ℚ) (count : ℕ)
    (fetcher : ℕ → Option (List Bond)) :
    Option (List Bond) × CacheState × Bool :=
  match st.last_fetch_time, st.last_bonds_data with
  | some t, some recs =>
    if t ≠ 0 ∧ recs ≠ [] ∧ now - t < 3600 then
      if count ≤ recs.length then (some (recs.take count), st, false)
      else fetchBranch st now count fetcher
    else fetchBranch st now count fetcher
  | _, _ => fetchBranch st now count fetcher

/-- The claim-side cache-hit condition: a (truthy) cached entry exists,
its age is below the TTL, and it holds at least `count` records. -/
def cacheCovers (st : CacheState) (now : ℚ) (count : ℕ) : Prop :=
  ∃ t recs, st.last_fetch_time = some t ∧ st.last_bonds_data = some recs ∧
    t ≠ 0 ∧ recs ≠ [] ∧ now - t < 3600 ∧ count ≤ recs.length

instance (st : CacheState) (now : ℚ) (count : ℕ) : Decidable (cacheCovers st now count) := by
  unfold cacheCovers
  cases st.last_fetch_time <;> cases st.last_bonds_data <;>
    simp <;> infer_instance

/-- The records of the cached entry (empty when no entry). -/
def cachedRecords (st : CacheState) : List Bond :=
  st.last_bonds_data.getD []

/-! ### Supporting lemmas -/

theorem pyMax_eq_none_iff (l : List ℕ) : pyMax l = none ↔ l = [] := by
  cases l with
  | nil => simp [pyMax]
  | cons x xs =>
    simp only [pyMax]
    cases pyMax xs <;> simp

/-- The row loop fails exactly when (a) there is at least one data row
and every resolved index among name/yield/rating/maturity is `None` or
`0` (the empty-`max` `ValueError`), or (b) some non-skipped row raises
the uncaught offer-date `OverflowError`. -/
theorem processRows_eq_none_iff (today : Date) (idxs : ColIdx)
    (rows : List (List (List Char))) :
    processRows today idxs rows = none ↔
      (rows ≠ [] ∧ truthyIdxs idxs = [])
      ∨ ∃ m, pyMax (truthyIdxs idxs) = some m
          ∧ ∃ cells ∈ rows, m < cells.length ∧ rowRaises idxs cells = true := by
  induction rows with
  | nil => simp [processRows]
  | cons cells rest ih =>
    cases hm : pyMax (truthyIdxs idxs) with
    | none =>
      have h0 : truthyIdxs idxs = [] := (pyMax_eq_none_iff _).mp hm
      constructor
      · intro _
        exact Or.inl ⟨by simp, h0⟩
      · intro _
        simp only [processRows]
        rw [hm]
    | some m =>
      have hne : truthyIdxs idxs ≠ [] := by
        intro h0
        rw [(pyMax_eq_none_iff _).mpr h0] at hm
        exact Option.noConfusion hm
      constructor
      · intro h
        simp only [processRows, hm] at h
        split at h
        · rcases ih.mp h with ⟨-, h0⟩ | ⟨m', hm', cs, hcs, hlen, hra⟩
          · exact absurd h0 hne
          · rw [hm] at hm'
            injection hm' with e
            subst e
            exact Or.inr ⟨m, rfl, cs, List.mem_cons_of_mem _ hcs, hlen, hra⟩
        · rename_i hskip
          split at h
          · rename_i hra
            exact Or.inr ⟨m, rfl, cells, List.mem_cons_self _ _, not_le.mp hskip, hra⟩
          · cases hrest : processRows today idxs rest with
            | none =>
              rcases ih.mp hrest with ⟨-, h0⟩ | ⟨m', hm', cs, hcs, hlen, hra⟩
              · exact absurd h0 hne
              · rw [hm] at hm'
                injection hm' with e
                subst e
                exact Or.inr ⟨m, rfl, cs, List.mem_cons_of_mem _ hcs, hlen, hra⟩
            | some bs =>
              rw [hrest] at h
              exact Option.noConfusion h
      · intro h
        rcases h with ⟨-, h0⟩ | ⟨m', hm', cs, hcs, hlen, hra⟩
        · exact absurd h0 hne
        · injection hm' with e
          subst e
          simp only [processRows, hm]
          rcases List.mem_cons.mp hcs with hceq | hcs'
          · subst hceq
            rw [if_neg (not_le.mpr hlen), if_pos hra]
          · have hrest : processRows today idxs rest = none :=
              ih.mpr (Or.inr ⟨m, hm, cs, hcs', hlen, hra⟩)
            by_cases hskip : cells.length ≤ m
            · rw [if_pos hskip]
              exact hrest
            · rw [if_neg hskip]
              cases hra2 : rowRaises idxs cells with
              | true => rfl
              | false =>
                rw [if_neg Bool.false_ne_true, hrest]
                rfl

/-- Every record produced by the row loop is the `buildBond` image of one
of the input rows (no record materialises from nowhere, and rows are
never aborted, only skipped). -/
theorem processRows_mem (today : Date) (idxs : ColIdx) :
    ∀ (rows : List (List (List Char))) (bs : List Bond),
      processRows today idxs rows = some bs →
      ∀ b ∈ bs, ∃ cells ∈ rows, b = buildBond today idxs cells := by
  intro rows
  induction rows with
  | nil =>
    intro bs h b hb
    simp only [processRows, Option.some.injEq] at h
    subst h
    cases hb
  | cons cells rest ih =>
    intro bs h b hb
    simp only [processRows] at h
    split at h
    · exact Option.noConfusion h
    · split at h
      · obtain ⟨cs, hcs, hbb⟩ := ih bs h b hb
        exact ⟨cs, List.mem_cons_of_mem _ hcs, hbb⟩
      · split at h
        · exact Option.noConfusion h
        · cases hrest : processRows today idxs rest with
          | none => rw [hrest] at h; exact Option.noConfusion h
          | some bs' =>
            rw [hrest] at h
            simp only [Option.map_some', Option.some.injEq] at h
            subst h
            rcases List.mem_cons.mp hb with hb | hb
            · exact ⟨cells, List.mem_cons_self _ _, hb⟩
            · obtain ⟨cs, hcs, hbb⟩ := ih bs' hrest b hb
              exact ⟨cs, List.mem_cons_of_mem _ hcs, hbb⟩

/-- Inserting into the stable descending sort: the filter by an exact
yield value gains the new element in front exactly when its yield is that
value (the elements it jumps over all have strictly greater yield). -/
theorem filter_orderedInsert_ytm (a : Bond) (l : List Bond) (y : ℚ) :
    (l.orderedInsert yieldGe a).filter (fun b => decide (b.ytm = y)) =
      if a.ytm = y then a :: l.filter (fun b => decide (b.ytm = y))
      else l.filter (fun b => decide (b.ytm = y)) := by
  induction l with
  | nil =>
    simp only [List.orderedInsert, List.filter]
    by_cases h : a.ytm = y <;> simp [h]
  | cons b l ih =>
    simp only [List.orderedInsert]
    by_cases hr : yieldGe a b
    · rw [if_pos hr]
      by_cases ha : a.ytm = y <;> simp [List.filter, ha]
    · rw [if_neg hr]
      have hb : ¬ b.ytm = y ∨ ¬ a.ytm = y := by
        by_cases ha : a.ytm = y
        · left
          intro hby
          exact hr (le_of_eq (hby.trans ha.symm))
        · right; exact ha
      by_cases ha : a.ytm = y
      · have hby : ¬ b.ytm = y := hb.resolve_right (fun h => h ha)
        simp [List.filter, ha, hby, ih]
      · by_cases hby : b.ytm = y <;> simp [List.filter, ha, hby, ih]

/-- Stability of the Ranker's sort: filtering by any exact yield value
commutes with sorting, i.e. records of equal yield keep their relative
input order. -/
theorem filter_sortBonds (l : List Bond) (y : ℚ) :
    (sortBonds l).filter (fun b => decide (b.ytm = y)) =
      l.filter (fun b => decide (b.ytm = y)) := by
  induction l with
  | nil => rfl
  | cons a l ih =>
    simp only [sortBonds] at ih ⊢
    show ((l.insertionSort yieldGe).orderedInsert yieldGe a).filter _ = _
    rw [filter_orderedInsert_ytm]
    by_cases h : a.ytm = y <;> simp [List.filter, h, ih]

/-- The fetch branch always reports that the fetcher was invoked. -/
theorem fetchBranch_invoked (st : CacheState) (now : ℚ) (count : ℕ)
    (fetcher : ℕ → Option (List Bond)) :
    (fetchBranch st now count fetcher).2.2 = true := by
  simp only [fetchBranch]
  cases fetcher (min (max count 5) 20) with
  | none => rfl
  | some bonds =>
    by_cases h : bonds = [] <;> simp [h]

/-- The initial width (the header length) bounds the folded width. -/
theorem width_foldl_ge_init (col : String) (data : List Bond) (init : ℕ) :
    init ≤ data.foldl
      (fun w b => match bondField b col with | some s => max w s.length | none => w)
      init := by
  induction data generalizing init with
  | nil => exact le_refl _
  | cons b l ih =>
    rw [List.foldl_cons]
    refine le_trans ?_ (ih _)
    show init ≤ (match bondField b col with | some s => max init s.length | none => init)
    cases bondField b col with
    | none => exact le_refl _
    | some s => exact le_max_left _ _

/-- Every present value measured by the width pass bounds the folded
width from below. -/
theorem width_foldl_ge_mem (col : String) (data : List Bond) (init : ℕ)
    (b : Bond) (hb : b ∈ data) (s : String) (hs : bondField b col = some s) :
    s.length ≤ data.foldl
      (fun w b => match bondField b col with | some s => max w s.length | none => w)
      init := by
  induction data generalizing init with
  | nil => cases hb
  | cons a l ih =>
    rw [List.foldl_cons]
    rcases List.mem_cons.mp hb with hba | hbl
    · subst hba
      refine le_trans ?_ (width_foldl_ge_init col l _)
      show s.length ≤ (match bondField b col with | some u => max init u.length | none => init)
      rw [hs]
      exact le_max_right _ _
    · exact ih _ hbl

/-! ### Shared concrete data for witnesses and counterexamples -/

def refToday : Date := ⟨2024, 6, 1⟩

def bondA : Bond :=
  ⟨"RU000A100001", "Alpha", 13, "AA", "3.5 years", "N/A", none⟩

def bondB : Bond := ⟨"N/A", "Beta", 7, "N/A", "N/A", "N/A", none⟩

/-! ### Claim C4: the Ranker -/

/-- Claim C4: for every list of records and every non-negative `k`,
`rank(records, k)` returns the records sorted non-increasingly by
`yield_to_maturity` with length `min k (len records)`, and the sort is
stable (it is the stable sort of the input, so records of equal yield
keep their relative input order; the output is the `k`-prefix of that
stable sort). -/
theorem claim4_rank_sorted_stable (records : List Bond) (k : ℕ) :
    List.Sorted yieldGe (rank records (k : ℤ))
    ∧ (rank records (k : ℤ)).length = min k records.length
    ∧ rank records (k : ℤ) = (sortBonds records).take k
    ∧ List.Perm (sortBonds records) records
    ∧ ∀ y : ℚ, (sortBonds records).filter (fun b => decide (b.ytm = y)) =
        records.filter (fun b => decide (b.ytm = y)) := by
  have htake : rank records (k : ℤ) = (sortBonds records).take k := by
    simp [rank, pySlice]
  refine ⟨?_, ?_, htake, List.perm_insertionSort _ _, fun y => filter_sortBonds records y⟩
  · rw [htake]
    exact List.Pairwise.sublist (List.take_sublist _ _)
      (List.sorted_insertionSort yieldGe records)
  · rw [htake]
    simp [sortBonds, List.length_take, List.length_insertionSort]

/-! ### Claim C8: no clamping, and the negative-count behaviour -/

/-- Claim C8 counterexample: the claim says the Ranker "errors exactly
when `count < 0`", but Python list slicing never raises for a negative
stop: `sorted_bonds[:-1]` drops the last entry and returns normally.
Here `rank [bondA, bondB] (-1)` returns `[bondA]` — a defined value, not
an error. -/
theorem claim8_negative_count_counterexample :
    rank [bondA, bondB] (-1) = [bondA] := by
  decide

/-- Claim C8 (amended): the Ranker performs no clamping; for
`count ≥ 0` it truncates the stable descending sort to the first `count`
entries; for `count < 0` it does not error: Python slicing keeps all but
the last `|count|` entries (clamped at zero). -/
theorem claim8_rank_truncation :
    (∀ (records : List Bond) (count : ℤ), 0 ≤ count →
        rank records count = (sortBonds records).take count.toNat
        ∧ (rank records count).length = min count.toNat records.length)
    ∧ ∀ (records : List Bond) (count : ℤ), count < 0 →
        rank records count = (sortBonds records).take (records.length - count.natAbs)
        ∧ (rank records count).length = records.length - count.natAbs := by
  have hlen : ∀ records : List Bond, (sortBonds records).length = records.length :=
    fun records => List.length_insertionSort _ _
  constructor
  · intro records count hc
    have h : rank records count = (sortBonds records).take count.toNat := by
      simp [rank, pySlice, hc]
    refine ⟨h, ?_⟩
    rw [h, List.length_take, hlen]
  · intro records count hc
    have h : rank records count = (sortBonds records).take (records.length - count.natAbs) := by
      simp [rank, pySlice, not_le.mpr hc, hlen]
    refine ⟨h, ?_⟩
    rw [h, List.length_take, hlen]
    exact min_eq_left (Nat.sub_le _ _)

/-- Witness for C8: at `records = [bondA, bondB]`, `count = 1`, the
nonnegative branch of the amended claim holds with its hypothesis
discharged. -/
theorem claim8_rank_truncation_witness :
    rank [bondA, bondB] 1 = (sortBonds [bondA, bondB]).take (1 : ℤ).toNat
    ∧ (rank [bondA, bondB] 1).length = min (1 : ℤ).toNat [bondA, bondB].length :=
  claim8_rank_truncation.1 [bondA, bondB] 1 (by decide)

/-! ### Claim C2: the offer-date field -/

/-- Modelled from the amended claim: a dash, empty or already-sentinel
cell yields the sentinel (`"N/A"`) with no `years_to_offer`; a cell
parsing as day.month.year (2-digit years read as 20xx) strictly in the
future keeps its text and yields the day difference divided by 365; a
parseable past-or-today date normalizes to the sentinel with
`years_to_offer` omitted; an unparseable cell keeps its markup-stripped
text (with `years_to_offer` omitted) instead of normalizing to the
sentinel. -/
def offerDateSpec (today : Date) (s : List Char) : List Char × Option ℚ :=
  if s = [] ∨ s = "-".data ∨ s = "N/A".data then ("N/A".data, none)
  else
    match parseDMY s with
    | none => (s, none)
    | some dt =>
      if 0 < dateDiff dt today then (s, some ((dateDiff dt today : ℚ) / 365))
      else ("N/A".data, none)

/-- Claim C2 counterexample: the claim says an unparseable offer-date
cell normalizes to the sentinel, but the source catches the parse error
and keeps the original string (`top_bonds.py:181-183`): `"31.13.24"`
(month 13) stays `"31.13.24"`, not `"N/A"`. -/
theorem claim2_unparseable_counterexample :
    processOfferDate refToday "31.13.24".data = ("31.13.24".data, none)
    ∧ ("31.13.24" : String).data ≠ "N/A".data := by
  exact ⟨by decide, by decide⟩

/-- Claim C2 (amended): the offer-date branch realises exactly the
amended contract `offerDateSpec` — dash/empty/sentinel cells and
parseable non-future dates yield the sentinel, parseable strictly-future
dates yield `years_to_offer = days/365`, and unparseable cells keep
their stripped text with `years_to_offer` omitted. -/
theorem claim2_offer_date_amended (today : Date) (s : List Char) :
    processOfferDate today s = offerDateSpec today s := by
  unfold processOfferDate offerDateSpec
  by_cases h0 : s = []
  · subst h0
    rw [if_neg (fun h => h.1 rfl), if_neg (by decide), if_pos (Or.inl rfl)]
    rfl
  · by_cases hd : s = "-".data
    · subst hd
      rw [if_neg (fun h => h.2.2 rfl), if_pos rfl, if_pos (Or.inr (Or.inl rfl))]
      rfl
    · by_cases hn : s = "N/A".data
      · subst hn
        rw [if_neg (fun h => h.2.1 rfl), if_neg (by decide),
          if_pos (Or.inr (Or.inr rfl))]
        rfl
      · have hne : ¬(s = [] ∨ s = "-".data ∨ s = "N/A".data) := by
          rintro (h | h | h)
          · exact h0 h
          · exact hd h
          · exact hn h
        rw [if_pos ⟨h0, hn, hd⟩, if_neg hne]
        cases hp : parseDMY s with
        | none =>
          simp only [hp]
          unfold fixEmptyOffer
          rw [if_neg h0]
        | some dt =>
          simp only [hp]
          by_cases hf : 0 < dateDiff dt today
          · rw [if_pos hf]
            unfold fixEmptyOffer
            rw [if_neg h0]
          · rw [if_neg hf]
            rfl

/-! ### Claim C1: the row-skip contract -/

/-- Markup in which the yield column is resolved at header index 0 and no
other column resolves: the table qualifies (it contains both markers —
the rating marker sits in a data cell), the sole data row has two cells
and so covers the maximum resolved column index (0). -/
def crashHtml : String :=
  "<table><tr><th>Доходность</th></tr><tr><td>Рейтинг АА</td><td>15,2%</td></tr></table>"

/-- Claim C1 (code bug): the claim says each data row whose cell count
covers the maximum resolved column index yields a record and the others
are skipped without failing, so this input must produce one record.  The
source instead computes `max(filter(None, [...]))`: Python truthiness
drops the resolved index `0` together with the `None`s, `max` raises
`ValueError` on the empty sequence, and the whole call returns `None`.
The conjuncts exhibit the failure and that the claim's premises hold
(a qualifying table, yield column at index 0, a 2-cell data row). -/
theorem claim1_row_skip_code_bug :
    get_top_yield_bonds refToday crashHtml 10 = none
    ∧ (selectTable crashHtml.data).isSome = true
    ∧ (colIdxsOf ((rowsOf ((selectTable crashHtml.data).getD [])).getD 0 [])).ytm_idx = some 0
    ∧ (tdCellsOf ((rowsOf ((selectTable crashHtml.data).getD [])).getD 1 [])).length = 2 := by
  exact ⟨by rfl, by decide, by decide, by decide⟩

/-! ### Claim C6: the failure cases of `extract` -/

/-- A qualifying table whose header row has a yield column (index 0) and
which has one data row; like `crashHtml` it makes the extraction fail,
although neither of the claim's two failure cases holds. -/
def crashHtml2 : String :=
  "<table><tr><th>Доходн. к погаш.</th></tr><tr><td>Рейтинг: АА</td></tr></table>"

/-- Claim C6 counterexample: the claim says `extract` fails exactly when
no table matches or the header row has no yield column.  Here a table is
selected and its header row resolves the yield column (index 0), yet the
call fails (the empty-`max` `ValueError` of the row loop). -/
theorem claim6_failure_cases_counterexample :
    get_top_yield_bonds refToday crashHtml2 5 = none
    ∧ (selectTable crashHtml2.data).isSome = true
    ∧ (colIdxsOf ((rowsOf ((selectTable crashHtml2.data).getD [])).getD 0 [])).ytm_idx
        = some 0 := by
  exact ⟨by rfl, by decide, by decide⟩

/-- Claim C6 (amended): `extract` fails exactly in five structural
cases: (1) no table contains both marker substrings; (2) the selected
table has no `<tr>` row at all; (3) the header row resolves no yield
column; (4) there is at least one data row and every resolved column
index among name/yield/rating/maturity is `None` or `0` (the
empty-`max` `ValueError`); (5) some non-skipped data row's offer-date
cell raises the uncaught `OverflowError` of `datetime.date` (a
component outside the C-int range).  Absence of the other semantic
columns never fails the call, and the per-row and per-cell parse
failures the local handlers catch never abort the batch. -/
theorem claim6_failure_iff (today : Date) (html : String) (count : ℤ) :
    get_top_yield_bonds today html count = none ↔
      selectTable html.data = none
      ∨ ∃ tc, selectTable html.data = some tc ∧
          (rowsOf tc = []
           ∨ ∃ hr rest, rowsOf tc = hr :: rest ∧
               ((colIdxsOf hr).ytm_idx = none
                ∨ (rest ≠ [] ∧ truthyIdxs (colIdxsOf hr) = [])
                ∨ ∃ m, pyMax (truthyIdxs (colIdxsOf hr)) = some m
                    ∧ ∃ cells ∈ rest.map tdCellsOf, m < cells.length
                        ∧ rowRaises (colIdxsOf hr) cells = true)) := by
  unfold get_top_yield_bonds
  cases hsel : selectTable html.data with
  | none => simp
  | some tc =>
    simp only [Option.some.injEq, reduceCtorEq, false_or, exists_eq_left']
    cases hrows : rowsOf tc with
    | nil =>
      constructor
      · intro _
        exact Or.inl rfl
      · intro _
        rfl
    | cons hr rest =>
      dsimp only
      cases hy : (colIdxsOf hr).ytm_idx with
      | none =>
        constructor
        · intro _
          exact Or.inr ⟨hr, rest, rfl, Or.inl hy⟩
        · intro _
          rfl
      | some k =>
        cases hpr : processRows today (colIdxsOf hr) (rest.map tdCellsOf) with
        | none =>
          rcases (processRows_eq_none_iff today (colIdxsOf hr) _).mp hpr with
            ⟨hne, htr⟩ | hB
          · have hrne : rest ≠ [] := by
              intro h
              subst h
              simp at hne
            constructor
            · intro _
              exact Or.inr ⟨hr, rest, rfl, Or.inr (Or.inl ⟨hrne, htr⟩)⟩
            · intro _
              rfl
          · constructor
            · intro _
              exact Or.inr ⟨hr, rest, rfl, Or.inr (Or.inr hB)⟩
            · intro _
              rfl
        | some bs =>
          constructor
          · intro h
            exact Option.noConfusion h
          · intro h
            exfalso
            rcases h with h | ⟨hr', rest', heq, h2⟩
            · exact List.noConfusion h
            · injection heq with e1 e2
              subst e1
              subst e2
              rcases h2 with h2 | ⟨hrne2, htr2⟩ | hB
              · rw [hy] at h2
                exact Option.noConfusion h2
              · have hmap : rest.map tdCellsOf ≠ [] := by
                  intro hm
                  exact hrne2 (by simpa using hm)
                have hnone : processRows today (colIdxsOf hr) (rest.map tdCellsOf) = none :=
                  (processRows_eq_none_iff today (colIdxsOf hr) _).mpr (Or.inl ⟨hmap, htr2⟩)
                rw [hpr] at hnone
                exact Option.noConfusion hnone
              · have hnone : processRows today (colIdxsOf hr) (rest.map tdCellsOf) = none :=
                  (processRows_eq_none_iff today (colIdxsOf hr) _).mpr (Or.inr hB)
                rw [hpr] at hnone
                exact Option.noConfusion hnone

/-- A qualifying table with a covered data row whose offer cell parses
to a year outside the C-int range: the `OverflowError` path of the fifth
failure case is reachable and aborts the whole extraction. -/
def overflowHtml : String :=
  "<table><tr><th>Имя</th><th>Доходн</th><th>Рейтинг</th><th>Оферта</th></tr><tr><td>Бонд</td><td>10</td><td>AA</td><td>01.01.2147483648</td></tr></table>"

set_option maxRecDepth 8192 in
theorem overflow_offer_aborts_extraction :
    get_top_yield_bonds refToday overflowHtml 5 = none
    ∧ offerRaisesOverflow "01.01.2147483648".data = true := by
  exact ⟨by rfl, by rfl⟩

/-! ### Claim C5: the yield field -/

/-- The yield value the program's record carries for this row: `float()`
of the cleaned yield cell when the parse succeeds — including the
non-finite results `inf`, `-inf` and `nan` — and `0.0` exactly when the
parse raises the caught `ValueError` (`top_bonds.py:129-135`).  The
`Bond` structure of this embedding restricts the field to the finite
case (`Bond.ytm : ℚ`), the data model the Ranker and Formatter claims
quantify over; this function is the unrestricted value. -/
def ytmValue (cells : List (List Char)) (oi : Option ℕ) : PyFloat :=
  (pyFloat (ytmText cells oi)).getD (PyFloat.finite 0)

/-- Markup whose single (covered) data row has the yield cell `inf`:
`float("inf")` succeeds, so the program stores positive infinity as the
row's yield to maturity. -/
def infHtml : String :=
  "<table><tr><th>Имя</th><th>Доходн</th><th>Рейтинг</th></tr><tr><td>Бонд</td><td>inf</td><td>AA</td></tr></table>"

/-- Claim C5 counterexample: the claim says every emitted record's yield
is a finite float.  On `infHtml` the extraction succeeds and emits
exactly one record (the row is not dropped and nothing is coerced to
0.0, since `float("inf")` does not raise), and the yield value the
program stores for that row is `inf` — not finite. -/
theorem claim5_infinite_yield_counterexample :
    (get_top_yield_bonds refToday infHtml 5).map List.length = some 1
    ∧ ytmValue (tdCellsOf ((rowsOf ((selectTable infHtml.data).getD [])).getD 1 []))
        ((colIdxsOf ((rowsOf ((selectTable infHtml.data).getD [])).getD 0 [])).ytm_idx)
      = PyFloat.inf
    ∧ PyFloat.inf.isFinite = false := by
  exact ⟨by rfl, by rfl, rfl⟩

/-- Claim C5 (amended): every emitted record's yield is never null — it
is `float()` of the cleaned cell when the parse succeeds and `0.0`
exactly when it fails (only genuine parse failures are coerced), the
`Bond` data model's rational field agrees with that value on every
finitely-parsing or failing cell, and the record is always emitted as
the `buildBond` image of its row — but the value is not always finite:
cells parsing as `inf`/`-inf`/`nan` (or decimal forms beyond the double
range) store a non-finite float. -/
theorem claim5_yield_amended :
    (∀ (cells : List (List Char)) (oi : Option ℕ),
        (pyFloat (ytmText cells oi) = none ∧ ytmValue cells oi = PyFloat.finite 0)
        ∨ ∃ v, pyFloat (ytmText cells oi) = some v ∧ ytmValue cells oi = v)
    ∧ (∀ (today : Date) (idxs : ColIdx) (cells : List (List Char)) (q : ℚ),
        pyFloat (ytmText cells idxs.ytm_idx) = some (PyFloat.finite q) →
        (buildBond today idxs cells).ytm = q)
    ∧ (∀ (today : Date) (idxs : ColIdx) (cells : List (List Char)),
        pyFloat (ytmText cells idxs.ytm_idx) = none →
        (buildBond today idxs cells).ytm = 0)
    ∧ (∀ (today : Date) (idxs : ColIdx) (rows : List (List (List Char))) (bs : List Bond),
        processRows today idxs rows = some bs →
        ∀ b ∈ bs, ∃ cells ∈ rows, b = buildBond today idxs cells) := by
  refine ⟨?_, ?_, ?_, processRows_mem⟩
  · intro cells oi
    cases hp : pyFloat (ytmText cells oi) with
    | none =>
      left
      exact ⟨rfl, by simp [ytmValue, hp]⟩
    | some v =>
      right
      exact ⟨v, rfl, by simp [ytmValue, hp]⟩
  · intro today idxs cells q hp
    simp [buildBond, parsePyFloat, hp]
  · intro today idxs cells hp
    simp [buildBond, parsePyFloat, hp]

/-- A data row whose yield cell (`"abc%"`) does not parse. -/
def rowGarbage : List (List Char) := ["Бета".data, "abc%".data]

def idxs0 : ColIdx := ⟨some 0, some 1, none, none, none⟩

def bondGarbage : Bond := buildBond refToday idxs0 rowGarbage

/-- Witness for C5: the row with the unparseable yield is still emitted,
as the `buildBond` image of the input row (its yield coerces to 0). -/
theorem claim5_yield_amended_witness :
    ∃ cells ∈ [rowGarbage], bondGarbage = buildBond refToday idxs0 cells :=
  claim5_yield_amended.2.2.2 refToday idxs0 [rowGarbage] [bondGarbage] (by rfl)
    bondGarbage (by decide)

/-! ### Claim C7: name/ISIN fallback and the rating sentinel -/

/-- Claim C7: when the anchor pattern does not match the name cell, the
record's ISIN carries the sentinel and the name falls back to the
markup-stripped plain text; when the rating column is absent, the rating
carries the sentinel.  (The source's sentinel literal is `"N/A"`.) -/
theorem claim7_sentinels (today : Date) (idxs : ColIdx) (cells : List (List Char))
    (ha : anchorSearch (cellText cells idxs.name_idx []) = none) :
    (buildBond today idxs cells).isin = "N/A"
    ∧ (buildBond today idxs cells).name =
        String.mk (pyStrip (stripTags (cellText cells idxs.name_idx [])))
    ∧ (idxs.rating_idx = none → (buildBond today idxs cells).rating = "N/A") := by
  refine ⟨?_, ?_, ?_⟩
  · simp [buildBond, ha]
  · simp [buildBond, ha]
  · intro h
    simp [buildBond, cellText, h]

/-- Witness for C7: the plain-text name cell `"Бета"` does not match the
anchor pattern, so the ISIN is the sentinel, the name is the stripped
text, and the absent rating column gives the sentinel rating. -/
theorem claim7_sentinels_witness :
    (buildBond refToday idxs0 rowGarbage).isin = "N/A"
    ∧ (buildBond refToday idxs0 rowGarbage).name =
        String.mk (pyStrip (stripTags (cellText rowGarbage idxs0.name_idx [])))
    ∧ (idxs0.rating_idx = none → (buildBond refToday idxs0 rowGarbage).rating = "N/A") :=
  claim7_sentinels refToday idxs0 rowGarbage (by rfl)

/-! ### Cache-layer lemmas -/

/-- A valid, fresh, covering cache entry is served without fetching. -/
theorem get_bonds_data_hit (t : ℚ) (recs : List Bond) (now : ℚ) (count : ℕ)
    (fetcher : ℕ → Option (List Bond))
    (h1 : t ≠ 0) (h2 : recs ≠ []) (h3 : now - t < 3600) (h4 : count ≤ recs.length) :
    get_bonds_data ⟨some t, some recs⟩ now count fetcher
      = (some (recs.take count), ⟨some t, some recs⟩, false) := by
  show (if t ≠ 0 ∧ recs ≠ [] ∧ now - t < 3600 then
      if count ≤ recs.length then (some (recs.take count), (⟨some t, some recs⟩ : CacheState), false)
      else fetchBranch ⟨some t, some recs⟩ now count fetcher
    else fetchBranch ⟨some t, some recs⟩ now count fetcher) = _
  rw [if_pos ⟨h1, h2, h3⟩, if_pos h4]

/-- The general form of the hit lemma, phrased over the claim-side hit
condition. -/
theorem get_bonds_data_covers_hit (st : CacheState) (now : ℚ) (count : ℕ)
    (fetcher : ℕ → Option (List Bond)) (hc : cacheCovers st now count) :
    get_bonds_data st now count fetcher
      = (some ((cachedRecords st).take count), st, false) := by
  obtain ⟨t, recs, hft, hbd, h1, h2, h3, h4⟩ := hc
  obtain ⟨lft, lbd⟩ := st
  cases hft
  cases hbd
  exact get_bonds_data_hit t recs now count fetcher h1 h2 h3 h4

/-- Whenever the claim-side hit condition fails, the call takes the fetch
branch. -/
theorem get_bonds_data_miss (st : CacheState) (now : ℚ) (count : ℕ)
    (fetcher : ℕ → Option (List Bond)) (h : ¬ cacheCovers st now count) :
    get_bonds_data st now count fetcher = fetchBranch st now count fetcher := by
  obtain ⟨lft, lbd⟩ := st
  cases lft with
  | none => cases lbd <;> rfl
  | some t =>
    cases lbd with
    | none => rfl
    | some recs =>
      show (if t ≠ 0 ∧ recs ≠ [] ∧ now - t < 3600 then
          if count ≤ recs.length then (some (recs.take count), (⟨some t, some recs⟩ : CacheState), false)
          else fetchBranch ⟨some t, some recs⟩ now count fetcher
        else fetchBranch ⟨some t, some recs⟩ now count fetcher) = _
      by_cases hcond : t ≠ 0 ∧ recs ≠ [] ∧ now - t < 3600
      · rw [if_pos hcond]
        by_cases hlen : count ≤ recs.length
        · exact absurd ⟨t, recs, rfl, rfl, hcond.1, hcond.2.1, hcond.2.2, hlen⟩ h
        · rw [if_neg hlen]
      · rw [if_neg hcond]

/-- A successful nonempty fetch replaces the cache wholesale and returns
the first `count` records. -/
theorem fetchBranch_success (st : CacheState) (now : ℚ) (count : ℕ)
    (fetcher : ℕ → Option (List Bond)) (bonds : List Bond)
    (hf : fetcher (min (max count 5) 20) = some bonds) (hne : bonds ≠ []) :
    fetchBranch st now count fetcher
      = (some (bonds.take count), ⟨some now, some bonds⟩, true) := by
  unfold fetchBranch
  dsimp only
  rw [hf]
  simp [hne]

/-- A failed or empty fetch leaves the state untouched and returns the
failure. -/
theorem fetchBranch_failure (st : CacheState) (now : ℚ) (count : ℕ)
    (fetcher : ℕ → Option (List Bond))
    (hf : fetcher (min (max count 5) 20) = none ∨ fetcher (min (max count 5) 20) = some []) :
    fetchBranch st now count fetcher = (none, st, true) := by
  unfold fetchBranch
  dsimp only
  rcases hf with hf | hf <;> rw [hf]
  rfl

/-! ### Claim C3: the cache contract -/

/-- Claim C3: the fetcher is not invoked exactly when a (truthy) cached
entry exists, is younger than the TTL and covers the request — the cached
prefix is returned and the state is unchanged; otherwise the fetcher is
invoked once at `clamp(max(count,5),5,20)` and, on nonempty success, the
entry is replaced wholesale and the first `count` records are returned.
Consequently two same-count calls within the TTL starting from an empty
cache fetch exactly once, and a larger-count call after a smaller-count
hit (one exceeding the cached records) re-fetches exactly once. -/
theorem claim3_cache_contract :
    (∀ (st : CacheState) (now : ℚ) (count : ℕ) (fetcher : ℕ → Option (List Bond)),
        ((get_bonds_data st now count fetcher).2.2 = false ↔ cacheCovers st now count))
    ∧ (∀ (st : CacheState) (now : ℚ) (count : ℕ) (fetcher : ℕ → Option (List Bond)),
        cacheCovers st now count →
        get_bonds_data st now count fetcher
          = (some ((cachedRecords st).take count), st, false))
    ∧ (∀ (st : CacheState) (now : ℚ) (count : ℕ) (fetcher : ℕ → Option (List Bond))
        (bonds : List Bond), ¬ cacheCovers st now count →
        fetcher (min (max count 5) 20) = some bonds → bonds ≠ [] →
        get_bonds_data st now count fetcher
          = (some (bonds.take count), ⟨some now, some bonds⟩, true))
    ∧ (∀ (t1 t2 : ℚ) (c : ℕ) (fetcher : ℕ → Option (List Bond)) (bonds : List Bond),
        fetcher (min (max c 5) 20) = some bonds → bonds ≠ [] → t1 ≠ 0 →
        t2 - t1 < 3600 → c ≤ bonds.length →
        (get_bonds_data initialCache t1 c fetcher).2.2 = true
        ∧ (get_bonds_data ((get_bonds_data initialCache t1 c fetcher).2.1) t2 c fetcher).2.2
            = false)
    ∧ (∀ (st : CacheState) (now now2 : ℚ) (c1 c2 : ℕ)
        (fetcher : ℕ → Option (List Bond)), cacheCovers st now c1 →
        (cachedRecords st).length < c2 →
        (get_bonds_data st now c1 fetcher).2.2 = false
        ∧ (get_bonds_data st now c1 fetcher).2.1 = st
        ∧ (get_bonds_data st now2 c2 fetcher).2.2 = true) := by
  have hhit := get_bonds_data_covers_hit
  have hiff : ∀ (st : CacheState) (now : ℚ) (count : ℕ)
      (fetcher : ℕ → Option (List Bond)),
      ((get_bonds_data st now count fetcher).2.2 = false ↔ cacheCovers st now count) := by
    intro st now count fetcher
    constructor
    · intro h
      by_cases hc : cacheCovers st now count
      · exact hc
      · rw [get_bonds_data_miss st now count fetcher hc, fetchBranch_invoked] at h
        exact absurd h (by simp)
    · intro hc
      rw [hhit st now count fetcher hc]
  refine ⟨hiff, hhit, ?_, ?_, ?_⟩
  · intro st now count fetcher bonds hc hf hne
    rw [get_bonds_data_miss st now count fetcher hc]
    exact fetchBranch_success st now count fetcher bonds hf hne
  · intro t1 t2 c fetcher bonds hf hne ht1 htt hcl
    have hnc : ¬ cacheCovers initialCache t1 c := by
      rintro ⟨t, recs, hft, -, -⟩
      exact Option.noConfusion hft
    have h1 : get_bonds_data initialCache t1 c fetcher
        = (some (bonds.take c), ⟨some t1, some bonds⟩, true) := by
      rw [get_bonds_data_miss initialCache t1 c fetcher hnc]
      exact fetchBranch_success initialCache t1 c fetcher bonds hf hne
    constructor
    · rw [h1]
    · rw [h1]
      have hc2 : cacheCovers ⟨some t1, some bonds⟩ t2 c :=
        ⟨t1, bonds, rfl, rfl, ht1, hne, htt, hcl⟩
      rw [hhit _ t2 c fetcher hc2]
  · intro st now now2 c1 c2 fetcher hc hlen
    have h1 := hhit st now c1 fetcher hc
    have hnc2 : ¬ cacheCovers st now2 c2 := by
      rintro ⟨t, recs, hft, hbd, -, -, -, h4⟩
      have : cachedRecords st = recs := by
        simp [cachedRecords, hbd]
      rw [this] at hlen
      exact absurd h4 (not_le.mpr hlen)
    refine ⟨by rw [h1], by rw [h1], ?_⟩
    rw [get_bonds_data_miss st now2 c2 fetcher hnc2, fetchBranch_invoked]

/-- A fetcher for the witness: it always returns five records. -/
def bondFetcher : ℕ → Option (List Bond) :=
  fun _ => some [bondA, bondB, bondA, bondB, bondA]

/-- Witness for C3: starting from the empty cache, a call at `t = 100`
with `count = 5` invokes the fetcher, and a second same-count call at
`t = 200` (within the TTL) does not. -/
theorem claim3_cache_contract_witness :
    (get_bonds_data initialCache 100 5 bondFetcher).2.2 = true
    ∧ (get_bonds_data ((get_bonds_data initialCache 100 5 bondFetcher).2.1)
        200 5 bondFetcher).2.2 = false :=
  claim3_cache_contract.2.2.2.1 100 200 5 bondFetcher [bondA, bondB, bondA, bondB, bondA]
    rfl (by decide) (by decide) (by norm_num) (by decide)

/-! ### Claim C10: fetch failure preserves the cache -/

/-- Claim C10: when the fetch fails or returns no records, the call
returns a failure and leaves the cache entry exactly as it was; a later
call covered by the old entry (within its TTL) still hits the old
data. -/
theorem claim10_failure_preserves_cache :
    (∀ (st : CacheState) (now : ℚ) (count : ℕ) (fetcher : ℕ → Option (List Bond)),
        ¬ cacheCovers st now count →
        (fetcher (min (max count 5) 20) = none
          ∨ fetcher (min (max count 5) 20) = some []) →
        get_bonds_data st now count fetcher = (none, st, true))
    ∧ (∀ (st : CacheState) (now : ℚ) (count : ℕ)
        (fetcher fetcher2 : ℕ → Option (List Bond)) (now2 : ℚ) (count2 : ℕ),
        ¬ cacheCovers st now count →
        (fetcher (min (max count 5) 20) = none
          ∨ fetcher (min (max count 5) 20) = some []) →
        cacheCovers st now2 count2 →
        get_bonds_data ((get_bonds_data st now count fetcher).2.1) now2 count2 fetcher2
          = (some ((cachedRecords st).take count2), st, false)) := by
  have hfail : ∀ (st : CacheState) (now : ℚ) (count : ℕ)
      (fetcher : ℕ → Option (List Bond)), ¬ cacheCovers st now count →
      (fetcher (min (max count 5) 20) = none
        ∨ fetcher (min (max count 5) 20) = some []) →
      get_bonds_data st now count fetcher = (none, st, true) := by
    intro st now count fetcher hc hf
    rw [get_bonds_data_miss st now count fetcher hc]
    exact fetchBranch_failure st now count fetcher hf
  refine ⟨hfail, ?_⟩
  intro st now count fetcher fetcher2 now2 count2 hc hf hc2
  rw [hfail st now count fetcher hc hf]
  exact get_bonds_data_covers_hit st now2 count2 fetcher2 hc2

/-- A cache state holding one record, fetched at `t = 10`. -/
def stOld : CacheState := ⟨some 10, some [bondA]⟩

/-- Witness for C10: a failing fetch at `t = 50`, `count = 3` leaves the
entry from `t = 10` intact, and a covered call at `t = 20`, `count = 1`
still hits it. -/
theorem claim10_failure_preserves_cache_witness :
    get_bonds_data ((get_bonds_data stOld 50 3 (fun _ => none)).2.1) 20 1
        (fun _ => none)
      = (some ((cachedRecords stOld).take 1), stOld, false) :=
  claim10_failure_preserves_cache.2 stOld 50 3 (fun _ => none) (fun _ => none) 20 1
    (by
      rintro ⟨t, recs, ht, hr, -, -, -, hlen⟩
      injection ht with ht'
      injection hr with hr'
      rw [← hr'] at hlen
      exact absurd hlen (by decide))
    (Or.inl rfl)
    ⟨10, [bondA], rfl, rfl, by decide, by decide, by norm_num, by decide⟩

/-! ### Claim C9: plain-table column widths -/

/-- Claim C9: in the plain-table format, every column's computed width is
at least the header label's length and at least the length of every
rendered value in that column (values absent from a record render as
`"N/A"`). -/
theorem claim9_column_widths (data : List Bond) (col : String) (b : Bond)
    (hc : col ∈ columns) (hb : b ∈ data) :
    col.length ≤ widthOf data col ∧ (renderCell b col).length ≤ widthOf data col := by
  constructor
  · exact width_foldl_ge_init col data _
  · cases hf : bondField b col with
    | some s =>
      have hr : renderCell b col = s := by simp [renderCell, hf]
      rw [hr]
      exact width_foldl_ge_mem col data _ b hb s hf
    | none =>
      have hr : renderCell b col = "N/A" := by simp [renderCell, hf]
      rw [hr]
      have h3 : ("N/A" : String).length ≤ col.length := by
        fin_cases hc <;> decide
      exact le_trans h3 (width_foldl_ge_init col data _)

/-- Witness for C9: the ISIN column of a one-record table. -/
theorem claim9_column_widths_witness :
    ("ISIN" : String).length ≤ widthOf [bondA] "ISIN"
    ∧ (renderCell bondA "ISIN").length ≤ widthOf [bondA] "ISIN" :=
  claim9_column_widths [bondA] "ISIN" bondA (by decide) (by decide)

end JackalBot
